import Mathlib

/-!
Verification of the batch OBJ-to-PNG renderer (`obj2png.py`).

The development embeds the script's model-independent core:
geometry normalization (`_reset_model_transform`, `_auto_adjust_camera`),
the fixed camera-pose table (`render_all_views`), the per-model output
layout (`process_single_model`, `render_view`) and the batch
orchestration / failure containment (`batch_render`).

Coordinates are embedded as exact rationals; Euler angles are stored in
degrees (the script passes them through `math.radians`), and the one
genuinely real-valued question (the isometric pitch versus an arctangent)
is settled over `ℝ`.
-/

set_option maxHeartbeats 1000000

namespace ObjToPng

/-- A 3-component vector with exact rational coordinates
(models Blender's `mathutils.Vector`). -/
structure Vec3 where
  x : ℚ
  y : ℚ
  z : ℚ
deriving DecidableEq, Repr

/-- The zero vector (the world origin `(0, 0, 0)`). -/
def vzero : Vec3 := ⟨0, 0, 0⟩

/-- Componentwise vector addition. -/
def addV (a b : Vec3) : Vec3 := ⟨a.x + b.x, a.y + b.y, a.z + b.z⟩

/-- Componentwise negation. -/
def negV (a : Vec3) : Vec3 := ⟨-a.x, -a.y, -a.z⟩

/-- Uniform scalar multiplication of a vector. -/
def smulV (s : ℚ) (a : Vec3) : Vec3 := ⟨s * a.x, s * a.y, s * a.z⟩

/-- A mesh: a nonempty collection of vertex positions, kept as a first
vertex plus the list of remaining vertices. -/
structure Mesh where
  v0 : Vec3
  rest : List Vec3
deriving DecidableEq, Repr

/-- Left fold of `min` with starting value `a` (least entry of `a :: l`). -/
def foldMin (a : ℚ) (l : List ℚ) : ℚ := l.foldl min a

/-- Left fold of `max` with starting value `a` (greatest entry of `a :: l`). -/
def foldMax (a : ℚ) (l : List ℚ) : ℚ := l.foldl max a

/-- Least `x`-coordinate of the mesh (x-component of the bounding-box min corner). -/
def minX (m : Mesh) : ℚ := foldMin m.v0.x (m.rest.map Vec3.x)

/-- Greatest `x`-coordinate of the mesh. -/
def maxX (m : Mesh) : ℚ := foldMax m.v0.x (m.rest.map Vec3.x)

/-- Least `y`-coordinate of the mesh. -/
def minY (m : Mesh) : ℚ := foldMin m.v0.y (m.rest.map Vec3.y)

/-- Greatest `y`-coordinate of the mesh. -/
def maxY (m : Mesh) : ℚ := foldMax m.v0.y (m.rest.map Vec3.y)

/-- Least `z`-coordinate of the mesh. -/
def minZ (m : Mesh) : ℚ := foldMin m.v0.z (m.rest.map Vec3.z)

/-- Greatest `z`-coordinate of the mesh. -/
def maxZ (m : Mesh) : ℚ := foldMax m.v0.z (m.rest.map Vec3.z)

/-- Bounding-box extent along `x`. -/
def dimX (m : Mesh) : ℚ := maxX m - minX m

/-- Bounding-box extent along `y`. -/
def dimY (m : Mesh) : ℚ := maxY m - minY m

/-- Bounding-box extent along `z`. -/
def dimZ (m : Mesh) : ℚ := maxZ m - minZ m

/-- `max(dimensions)`: the largest of the three bounding-box extents
(`obj2png.py` lines 115-116 and 199-200). -/
def maxDim (m : Mesh) : ℚ := max (dimX m) (max (dimY m) (dimZ m))

/-- Bounding-box center `(bbox_max + bbox_min) / 2` (`obj2png.py` line 206). -/
def centerV (m : Mesh) : Vec3 :=
  ⟨(maxX m + minX m) / 2, (maxY m + minY m) / 2, (maxZ m + minZ m) / 2⟩

/-- Translate every vertex of a mesh by `t`. -/
def translateMesh (m : Mesh) (t : Vec3) : Mesh :=
  ⟨addV m.v0 t, m.rest.map (fun v => addV v t)⟩

/-- Scale every vertex of a mesh uniformly by `s` (about the origin). -/
def scaleMesh (s : ℚ) (m : Mesh) : Mesh :=
  ⟨smulV s m.v0, m.rest.map (fun v => smulV s v)⟩

theorem foldMin_map_add (c : ℚ) :
    ∀ (l : List ℚ) (a : ℚ), foldMin (a + c) (l.map (fun q => q + c)) = foldMin a l + c := by
  intro l
  induction l with
  | nil => intro a; rfl
  | cons q l ih =>
      intro a
      show foldMin (min (a + c) (q + c)) (l.map (fun q => q + c)) = foldMin (min a q) l + c
      rw [min_add_add_right, ih]

theorem foldMax_map_add (c : ℚ) :
    ∀ (l : List ℚ) (a : ℚ), foldMax (a + c) (l.map (fun q => q + c)) = foldMax a l + c := by
  intro l
  induction l with
  | nil => intro a; rfl
  | cons q l ih =>
      intro a
      show foldMax (max (a + c) (q + c)) (l.map (fun q => q + c)) = foldMax (max a q) l + c
      rw [max_add_add_right, ih]

theorem min_mul_of_nonneg_left (s a b : ℚ) (hs : 0 ≤ s) :
    min (s * a) (s * b) = s * min a b := by
  rcases le_total a b with h | h
  · rw [min_eq_left (mul_le_mul_of_nonneg_left h hs), min_eq_left h]
  · rw [min_eq_right (mul_le_mul_of_nonneg_left h hs), min_eq_right h]

theorem max_mul_of_nonneg_left (s a b : ℚ) (hs : 0 ≤ s) :
    max (s * a) (s * b) = s * max a b := by
  rcases le_total a b with h | h
  · rw [max_eq_right (mul_le_mul_of_nonneg_left h hs), max_eq_right h]
  · rw [max_eq_left (mul_le_mul_of_nonneg_left h hs), max_eq_left h]

theorem foldMin_map_mul (s : ℚ) (hs : 0 ≤ s) :
    ∀ (l : List ℚ) (a : ℚ), foldMin (s * a) (l.map (fun q => s * q)) = s * foldMin a l := by
  intro l
  induction l with
  | nil => intro a; rfl
  | cons q l ih =>
      intro a
      show foldMin (min (s * a) (s * q)) (l.map (fun q => s * q)) = s * foldMin (min a q) l
      rw [min_mul_of_nonneg_left s a q hs, ih]

theorem foldMax_map_mul (s : ℚ) (hs : 0 ≤ s) :
    ∀ (l : List ℚ) (a : ℚ), foldMax (s * a) (l.map (fun q => s * q)) = s * foldMax a l := by
  intro l
  induction l with
  | nil => intro a; rfl
  | cons q l ih =>
      intro a
      show foldMax (max (s * a) (s * q)) (l.map (fun q => s * q)) = s * foldMax (max a q) l
      rw [max_mul_of_nonneg_left s a q hs, ih]

theorem minX_translate (m : Mesh) (t : Vec3) : minX (translateMesh m t) = minX m + t.x := by
  show foldMin (m.v0.x + t.x) ((m.rest.map (fun v => addV v t)).map Vec3.x) = _
  rw [List.map_map]
  have h : (Vec3.x ∘ fun v => addV v t) = (fun q => q + t.x) ∘ Vec3.x := rfl
  rw [h, ← List.map_map]
  exact foldMin_map_add t.x (m.rest.map Vec3.x) m.v0.x

theorem maxX_translate (m : Mesh) (t : Vec3) : maxX (translateMesh m t) = maxX m + t.x := by
  show foldMax (m.v0.x + t.x) ((m.rest.map (fun v => addV v t)).map Vec3.x) = _
  rw [List.map_map]
  have h : (Vec3.x ∘ fun v => addV v t) = (fun q => q + t.x) ∘ Vec3.x := rfl
  rw [h, ← List.map_map]
  exact foldMax_map_add t.x (m.rest.map Vec3.x) m.v0.x

theorem minY_translate (m : Mesh) (t : Vec3) : minY (translateMesh m t) = minY m + t.y := by
  show foldMin (m.v0.y + t.y) ((m.rest.map (fun v => addV v t)).map Vec3.y) = _
  rw [List.map_map]
  have h : (Vec3.y ∘ fun v => addV v t) = (fun q => q + t.y) ∘ Vec3.y := rfl
  rw [h, ← List.map_map]
  exact foldMin_map_add t.y (m.rest.map Vec3.y) m.v0.y

theorem maxY_translate (m : Mesh) (t : Vec3) : maxY (translateMesh m t) = maxY m + t.y := by
  show foldMax (m.v0.y + t.y) ((m.rest.map (fun v => addV v t)).map Vec3.y) = _
  rw [List.map_map]
  have h : (Vec3.y ∘ fun v => addV v t) = (fun q => q + t.y) ∘ Vec3.y := rfl
  rw [h, ← List.map_map]
  exact foldMax_map_add t.y (m.rest.map Vec3.y) m.v0.y

theorem minZ_translate (m : Mesh) (t : Vec3) : minZ (translateMesh m t) = minZ m + t.z := by
  show foldMin (m.v0.z + t.z) ((m.rest.map (fun v => addV v t)).map Vec3.z) = _
  rw [List.map_map]
  have h : (Vec3.z ∘ fun v => addV v t) = (fun q => q + t.z) ∘ Vec3.z := rfl
  rw [h, ← List.map_map]
  exact foldMin_map_add t.z (m.rest.map Vec3.z) m.v0.z

theorem maxZ_translate (m : Mesh) (t : Vec3) : maxZ (translateMesh m t) = maxZ m + t.z := by
  show foldMax (m.v0.z + t.z) ((m.rest.map (fun v => addV v t)).map Vec3.z) = _
  rw [List.map_map]
  have h : (Vec3.z ∘ fun v => addV v t) = (fun q => q + t.z) ∘ Vec3.z := rfl
  rw [h, ← List.map_map]
  exact foldMax_map_add t.z (m.rest.map Vec3.z) m.v0.z

theorem minX_scale (s : ℚ) (m : Mesh) (hs : 0 ≤ s) : minX (scaleMesh s m) = s * minX m := by
  show foldMin (s * m.v0.x) ((m.rest.map (fun v => smulV s v)).map Vec3.x) = _
  rw [List.map_map]
  have h : (Vec3.x ∘ fun v => smulV s v) = (fun q => s * q) ∘ Vec3.x := rfl
  rw [h, ← List.map_map]
  exact foldMin_map_mul s hs (m.rest.map Vec3.x) m.v0.x

theorem maxX_scale (s : ℚ) (m : Mesh) (hs : 0 ≤ s) : maxX (scaleMesh s m) = s * maxX m := by
  show foldMax (s * m.v0.x) ((m.rest.map (fun v => smulV s v)).map Vec3.x) = _
  rw [List.map_map]
  have h : (Vec3.x ∘ fun v => smulV s v) = (fun q => s * q) ∘ Vec3.x := rfl
  rw [h, ← List.map_map]
  exact foldMax_map_mul s hs (m.rest.map Vec3.x) m.v0.x

theorem minY_scale (s : ℚ) (m : Mesh) (hs : 0 ≤ s) : minY (scaleMesh s m) = s * minY m := by
  show foldMin (s * m.v0.y) ((m.rest.map (fun v => smulV s v)).map Vec3.y) = _
  rw [List.map_map]
  have h : (Vec3.y ∘ fun v => smulV s v) = (fun q => s * q) ∘ Vec3.y := rfl
  rw [h, ← List.map_map]
  exact foldMin_map_mul s hs (m.rest.map Vec3.y) m.v0.y

theorem maxY_scale (s : ℚ) (m : Mesh) (hs : 0 ≤ s) : maxY (scaleMesh s m) = s * maxY m := by
  show foldMax (s * m.v0.y) ((m.rest.map (fun v => smulV s v)).map Vec3.y) = _
  rw [List.map_map]
  have h : (Vec3.y ∘ fun v => smulV s v) = (fun q => s * q) ∘ Vec3.y := rfl
  rw [h, ← List.map_map]
  exact foldMax_map_mul s hs (m.rest.map Vec3.y) m.v0.y

theorem minZ_scale (s : ℚ) (m : Mesh) (hs : 0 ≤ s) : minZ (scaleMesh s m) = s * minZ m := by
  show foldMin (s * m.v0.z) ((m.rest.map (fun v => smulV s v)).map Vec3.z) = _
  rw [List.map_map]
  have h : (Vec3.z ∘ fun v => smulV s v) = (fun q => s * q) ∘ Vec3.z := rfl
  rw [h, ← List.map_map]
  exact foldMin_map_mul s hs (m.rest.map Vec3.z) m.v0.z

theorem maxZ_scale (s : ℚ) (m : Mesh) (hs : 0 ≤ s) : maxZ (scaleMesh s m) = s * maxZ m := by
  show foldMax (s * m.v0.z) ((m.rest.map (fun v => smulV s v)).map Vec3.z) = _
  rw [List.map_map]
  have h : (Vec3.z ∘ fun v => smulV s v) = (fun q => s * q) ∘ Vec3.z := rfl
  rw [h, ← List.map_map]
  exact foldMax_map_mul s hs (m.rest.map Vec3.z) m.v0.z

theorem maxDim_translate (m : Mesh) (t : Vec3) : maxDim (translateMesh m t) = maxDim m := by
  unfold maxDim dimX dimY dimZ
  rw [minX_translate, maxX_translate, minY_translate, maxY_translate, minZ_translate,
    maxZ_translate]
  ring_nf

theorem centerV_translate (m : Mesh) (t : Vec3) :
    centerV (translateMesh m t) = addV (centerV m) t := by
  unfold centerV addV
  rw [minX_translate, maxX_translate, minY_translate, maxY_translate, minZ_translate,
    maxZ_translate]
  simp only [Vec3.mk.injEq]
  refine ⟨by ring, by ring, by ring⟩

theorem maxDim_scale (s : ℚ) (m : Mesh) (hs : 0 ≤ s) :
    maxDim (scaleMesh s m) = s * maxDim m := by
  unfold maxDim dimX dimY dimZ
  rw [minX_scale s m hs, maxX_scale s m hs, minY_scale s m hs, maxY_scale s m hs,
    minZ_scale s m hs, maxZ_scale s m hs]
  rw [show s * maxX m - s * minX m = s * (maxX m - minX m) by ring,
    show s * maxY m - s * minY m = s * (maxY m - minY m) by ring,
    show s * maxZ m - s * minZ m = s * (maxZ m - minZ m) by ring]
  rw [max_mul_of_nonneg_left s _ _ hs, max_mul_of_nonneg_left s _ _ hs]

theorem centerV_scale (s : ℚ) (m : Mesh) (hs : 0 ≤ s) :
    centerV (scaleMesh s m) = smulV s (centerV m) := by
  unfold centerV smulV
  rw [minX_scale s m hs, maxX_scale s m hs, minY_scale s m hs, maxY_scale s m hs,
    minZ_scale s m hs, maxZ_scale s m hs]
  simp only [Vec3.mk.injEq]
  refine ⟨by ring, by ring, by ring⟩

/-- The Blender object state the script manipulates: local-space vertices,
a location offset and a uniform scale.  The script bakes any imported
rotation with `transform_apply(rotation=True)` (line 103) and pins
`rotation_euler = (0, 0, 0)` (line 112), so rotation stays the identity
throughout the modelled fragment and is not carried in the state. -/
structure Obj where
  verts : Mesh
  loc : Vec3
  scale : ℚ
deriving DecidableEq, Repr

/-- World-space vertices: with identity rotation,
`obj.matrix_world @ v = loc + scale * v` for each local vertex `v`. -/
def worldMesh (o : Obj) : Mesh := translateMesh (scaleMesh o.scale o.verts) o.loc

/-- `max(obj.dimensions)`: largest world-space bounding-box extent. -/
def objMaxDim (o : Obj) : ℚ := maxDim (worldMesh o)

/-- World-space bounding-box center of the object. -/
def objCenter (o : Obj) : Vec3 := centerV (worldMesh o)

/-- `_reset_model_transform` (`obj2png.py` lines 96-122).  The argument is
the mesh with all prior transforms already baked in by
`transform_apply(location=True, rotation=True, scale=True)` (line 103), so
the starting state is `⟨m, 0, 1⟩`.  Then:
`origin_set(type='ORIGIN_GEOMETRY', center='BOUNDS')` (line 106) moves the
origin to the bounding-box center (shifting local vertices by `-c` and the
location by `+c`); `obj.location = (0, 0, 0)` (line 109);
`obj.rotation_euler = (0, 0, 0)` (line 112) is the identity here; lines
115-119 set a uniform scale `2.0 / max_dim` unless `max_dim == 0`; and
`transform_apply(scale=True)` (line 122) bakes the scale into the
vertices. -/
def resetModelTransform (m : Mesh) : Obj :=
  let o1 : Obj := ⟨m, vzero, 1⟩
  let c := centerV o1.verts
  let o2 : Obj := ⟨translateMesh o1.verts (negV c), addV o1.loc c, o1.scale⟩
  let o3 : Obj := ⟨o2.verts, vzero, o2.scale⟩
  let d := objMaxDim o3
  let s := if d ≠ 0 then 2 / d else o3.scale
  ⟨scaleMesh s o3.verts, o3.loc, 1⟩

/-- The uniform scale chosen at lines 115-119 of `_reset_model_transform`:
`2.0 / max_dim` when `max_dim != 0`, otherwise the scale is left at the
identity (the scaling step is skipped). -/
def chosenScaleFactor (m : Mesh) : ℚ :=
  let c := centerV m
  let d := objMaxDim ⟨translateMesh m (negV c), vzero, 1⟩
  if d ≠ 0 then 2 / d else 1

/-- `_auto_adjust_camera` (`obj2png.py` lines 191-207): recomputes the
world-space bounding box from `obj.matrix_world @ corner`, sets
`camera.data.ortho_scale = max_dim * 1.2` (line 203, 20% margin), and
re-centers the object with `obj.location = -center` (line 207).  Returns
the ortho scale together with the updated object. -/
def autoAdjustCamera (o : Obj) : ℚ × Obj :=
  let w := worldMesh o
  let d := maxDim w
  let orthoWidth := d * (6 / 5)
  let c := centerV w
  (orthoWidth, ⟨o.verts, negV c, o.scale⟩)

/-- The full geometry-normalization pipeline applied to a freshly imported
(and baked) mesh: `_reset_model_transform` followed by the re-centering
half of `_auto_adjust_camera`. -/
def normalizeObj (m : Mesh) : Obj := (autoAdjustCamera (resetModelTransform m)).2

/-- The per-model `ortho_scale` computed by `_auto_adjust_camera`. -/
def orthoScaleOf (o : Obj) : ℚ := (autoAdjustCamera o).1

theorem smulV_one (a : Vec3) : smulV 1 a = a := by
  cases a; simp [smulV]

theorem addV_vzero (a : Vec3) : addV a vzero = a := by
  cases a; simp [addV, vzero]

theorem addV_negV (a : Vec3) : addV a (negV a) = vzero := by
  cases a; simp [addV, negV, vzero]

theorem negV_vzero : negV vzero = vzero := by
  simp [negV, vzero]

theorem scaleMesh_one (m : Mesh) : scaleMesh 1 m = m := by
  cases m with
  | mk v0 rest =>
      unfold scaleMesh
      rw [smulV_one]
      congr 1
      rw [show (fun v => smulV 1 v) = id from funext smulV_one, List.map_id]

theorem translateMesh_vzero (m : Mesh) : translateMesh m vzero = m := by
  cases m with
  | mk v0 rest =>
      unfold translateMesh
      rw [addV_vzero]
      congr 1
      rw [show (fun v => addV v vzero) = id from funext addV_vzero, List.map_id]

theorem worldMesh_id (m : Mesh) : worldMesh ⟨m, vzero, 1⟩ = m := by
  unfold worldMesh
  rw [scaleMesh_one, translateMesh_vzero]

theorem smulV_vzero (s : ℚ) : smulV s vzero = vzero := by
  simp [smulV, vzero]

/-- C1: for every mesh with a non-degenerate bounding box, after the
geometry normalizer (`_reset_model_transform` plus the re-centering pass
of `_auto_adjust_camera`) the largest bounding-box dimension equals
exactly `2` and the bounding-box center is the origin.  In this exact
rational embedding, "within floating-point tolerance" is sharpened to
exact equality. -/
theorem normalizer_canonical (m : Mesh) (h : 0 < maxDim m) :
    objMaxDim (normalizeObj m) = 2 ∧ objCenter (normalizeObj m) = vzero := by
  have hc : centerV (translateMesh m (negV (centerV m))) = vzero := by
    rw [centerV_translate, addV_negV]
  have hd : maxDim (translateMesh m (negV (centerV m))) = maxDim m :=
    maxDim_translate m (negV (centerV m))
  set m2 := translateMesh m (negV (centerV m)) with hm2
  have hwm2 : worldMesh ⟨m2, vzero, 1⟩ = m2 := worldMesh_id m2
  have hd3 : objMaxDim ⟨m2, vzero, 1⟩ = maxDim m := by
    unfold objMaxDim
    rw [hwm2, hd]
  have hne : maxDim m ≠ 0 := ne_of_gt h
  have hreset : resetModelTransform m = ⟨scaleMesh (2 / maxDim m) m2, vzero, 1⟩ := by
    show (⟨scaleMesh
        (if objMaxDim ⟨m2, vzero, 1⟩ ≠ 0 then 2 / objMaxDim ⟨m2, vzero, 1⟩ else 1)
        m2, vzero, 1⟩ : Obj) = _
    rw [hd3, if_pos hne]
  have hsnn : (0 : ℚ) ≤ 2 / maxDim m := by positivity
  have hdw : maxDim (scaleMesh (2 / maxDim m) m2) = 2 := by
    rw [maxDim_scale _ _ hsnn, hd, div_mul_cancel₀]
    exact hne
  have hcw : centerV (scaleMesh (2 / maxDim m) m2) = vzero := by
    rw [centerV_scale _ _ hsnn, hc, smulV_vzero]
  have hnorm : normalizeObj m = ⟨scaleMesh (2 / maxDim m) m2, vzero, 1⟩ := by
    unfold normalizeObj autoAdjustCamera
    rw [hreset]
    simp only [worldMesh_id, hcw, negV_vzero]
  rw [hnorm]
  constructor
  · unfold objMaxDim
    rw [worldMesh_id, hdw]
  · unfold objCenter
    rw [worldMesh_id, hcw]

/-- Witness for C1 at the concrete mesh with vertices `(0,0,0)` and `(1,2,3)`. -/
theorem normalizer_canonical_witness :
    0 < maxDim ⟨⟨0, 0, 0⟩, [⟨1, 2, 3⟩]⟩ ∧
      objMaxDim (normalizeObj ⟨⟨0, 0, 0⟩, [⟨1, 2, 3⟩]⟩) = 2 ∧
      objCenter (normalizeObj ⟨⟨0, 0, 0⟩, [⟨1, 2, 3⟩]⟩) = vzero :=
  ⟨by norm_num [maxDim, dimX, dimY, dimZ, maxX, minX, maxY, minY, maxZ, minZ,
      foldMin, foldMax, List.foldl, min_def, max_def],
    normalizer_canonical ⟨⟨0, 0, 0⟩, [⟨1, 2, 3⟩]⟩
      (by norm_num [maxDim, dimX, dimY, dimZ, maxX, minX, maxY, minY, maxZ, minZ,
        foldMin, foldMax, List.foldl, min_def, max_def])⟩

/-- C2: for a degenerate mesh (largest extent zero) the normalizer skips
the scaling step: the chosen scale factor is the identity `1`, no division
by zero is performed (the guarded branch `2.0 / max_dim` is never taken),
and the vertices are only translated, never scaled. -/
theorem degenerate_mesh_identity_scale (m : Mesh) (h : maxDim m = 0) :
    chosenScaleFactor m = 1 ∧
      (resetModelTransform m).verts = translateMesh m (negV (centerV m)) ∧
      (resetModelTransform m).scale = 1 := by
  have hz : objMaxDim ⟨translateMesh m (negV (centerV m)), vzero, 1⟩ = 0 := by
    unfold objMaxDim
    rw [worldMesh_id, maxDim_translate, h]
  have hcond : ¬ (objMaxDim ⟨translateMesh m (negV (centerV m)), vzero, 1⟩ ≠ 0) :=
    fun hfalse => hfalse hz
  have hreset : resetModelTransform m =
      ⟨scaleMesh 1 (translateMesh m (negV (centerV m))), vzero, 1⟩ := by
    show (⟨scaleMesh
        (if objMaxDim ⟨translateMesh m (negV (centerV m)), vzero, 1⟩ ≠ 0
          then 2 / objMaxDim ⟨translateMesh m (negV (centerV m)), vzero, 1⟩ else 1)
        (translateMesh m (negV (centerV m))), vzero, 1⟩ : Obj) = _
    rw [if_neg hcond]
  refine ⟨?_, ?_, rfl⟩
  · show (if objMaxDim ⟨translateMesh m (negV (centerV m)), vzero, 1⟩ ≠ 0
        then 2 / objMaxDim ⟨translateMesh m (negV (centerV m)), vzero, 1⟩ else 1) = 1
    rw [if_neg hcond]
  · rw [hreset]
    exact scaleMesh_one _

/-- Witness for C2 at the concrete one-point mesh `(5,5,5)`. -/
theorem degenerate_mesh_identity_scale_witness :
    maxDim ⟨⟨5, 5, 5⟩, []⟩ = 0 ∧ chosenScaleFactor ⟨⟨5, 5, 5⟩, []⟩ = 1 :=
  ⟨by norm_num [maxDim, dimX, dimY, dimZ, maxX, minX, maxY, minY, maxZ, minZ,
      foldMin, foldMax, List.foldl, min_def, max_def],
    (degenerate_mesh_identity_scale ⟨⟨5, 5, 5⟩, []⟩
      (by norm_num [maxDim, dimX, dimY, dimZ, maxX, minX, maxY, minY, maxZ, minZ,
        foldMin, foldMax, List.foldl, min_def, max_def])).1⟩

/-- C7: the per-model ortho scale equals the largest bounding-box extent
times the `1.2` margin factor, and is linear in model size: doubling the
model doubles the ortho scale. -/
theorem ortho_scale_margin (o : Obj) (m : Mesh) :
    orthoScaleOf o = objMaxDim o * (6 / 5) ∧
      orthoScaleOf ⟨scaleMesh 2 m, vzero, 1⟩ = 2 * orthoScaleOf ⟨m, vzero, 1⟩ := by
  constructor
  · rfl
  · show maxDim (worldMesh ⟨scaleMesh 2 m, vzero, 1⟩) * (6 / 5) =
      2 * (maxDim (worldMesh ⟨m, vzero, 1⟩) * (6 / 5))
    rw [worldMesh_id, worldMesh_id, maxDim_scale 2 m (by norm_num)]
    ring

/-- `iso_distance` (line 230): the camera distance used by the isometric
poses. -/
def isoDistance : ℚ := 15

/-- `iso_angle` (line 231): the script writes `math.radians(54.736)`. -/
def isoAngleDeg : ℚ := 54736 / 1000

/-- The `orthographic_views` dict of `render_all_views` (lines 220-227),
in insertion order; rotations in degrees (the source wraps each angle in
`math.radians`). -/
def orthographicViews : List (String × Vec3 × Vec3) :=
  [("front", ⟨0, -15, 0⟩, ⟨90, 0, 180⟩),
   ("back", ⟨0, 15, 0⟩, ⟨90, 0, 0⟩),
   ("right", ⟨15, 0, 0⟩, ⟨90, 0, 90⟩),
   ("left", ⟨-15, 0, 0⟩, ⟨90, 0, -90⟩),
   ("top", ⟨0, 0, 15⟩, ⟨0, 0, 180⟩),
   ("bottom", ⟨0, 0, -15⟩, ⟨180, 0, 180⟩)]

/-- The `iso_views` dict of `render_all_views` (lines 230-249), in
insertion order; rotations in degrees. -/
def isoViews : List (String × Vec3 × Vec3) :=
  [("standard", ⟨isoDistance, -isoDistance, isoDistance⟩, ⟨isoAngleDeg, 0, 45⟩),
   ("iso_back", ⟨-isoDistance, isoDistance, isoDistance⟩, ⟨isoAngleDeg, 0, 225⟩),
   ("iso_left", ⟨-isoDistance, -isoDistance, isoDistance⟩, ⟨isoAngleDeg, 0, 315⟩),
   ("iso_right", ⟨isoDistance, isoDistance, isoDistance⟩, ⟨isoAngleDeg, 0, 135⟩)]

/-- The sequence of view names rendered by `render_all_views`
(lines 251-259): the orthographic dict first, then the isometric dict,
each iterated in insertion order. -/
def renderAllViewsOrder : List String :=
  orthographicViews.map Prod.fst ++ isoViews.map Prod.fst

/-- Spec-side copy of the orthographic pose table, written out from the
spec's own wording (§4.2, orthographic family). -/
def specOrthographicPoses : List (String × Vec3 × Vec3) :=
  [("front", ⟨0, -15, 0⟩, ⟨90, 0, 180⟩),
   ("back", ⟨0, 15, 0⟩, ⟨90, 0, 0⟩),
   ("right", ⟨15, 0, 0⟩, ⟨90, 0, 90⟩),
   ("left", ⟨-15, 0, 0⟩, ⟨90, 0, -90⟩),
   ("top", ⟨0, 0, 15⟩, ⟨0, 0, 180⟩),
   ("bottom", ⟨0, 0, -15⟩, ⟨180, 0, 180⟩)]

/-- C3: the six orthographic camera poses of the script are exactly the
fixed constants stated in the spec (positions at distance 15 on the axes,
with the quoted Euler triples in degrees); the table is a closed constant,
independent of the model. -/
theorem ortho_pose_table_exact : orthographicViews = specOrthographicPoses := rfl

/-- C6: within one model's render job the ten views are rendered
sequentially in the fixed order: the six orthographic views first, then
the four isometric views. -/
theorem view_render_order :
    renderAllViewsOrder =
      ["front", "back", "right", "left", "top", "bottom",
       "standard", "iso_back", "iso_left", "iso_right"] := rfl

/-- Outcome of the effectful body of `process_single_model`'s `try` block
(creating the output subdirectory, constructing the renderer — engine
setup, mesh import, normalization — and rendering the ten views).  The
engine and file system are abstracted as an oracle from the input path to
either success or a raised exception's text. -/
inductive EngineOutcome where
  | ok : EngineOutcome
  | err : String → EngineOutcome
deriving DecidableEq, Repr

/-- `process_single_model` (lines 261-279): runs the effectful body and
converts any exception into a failure result string; a normal run yields
the success result string.  Nothing escapes the `try`/`except` boundary. -/
def processSingleModel (run : String → EngineOutcome) (objPath : String) : String :=
  match run objPath with
  | EngineOutcome.ok => "成功渲染: " ++ objPath
  | EngineOutcome.err e => "渲染失败 " ++ objPath ++ ": " ++ e

/-- Whether the oracle reports a failure for the given input path. -/
def jobFails (run : String → EngineOutcome) (p : String) : Bool :=
  match run p with
  | EngineOutcome.ok => false
  | EngineOutcome.err _ => true

/-- `pool.map(process_single_model, render_args)` (lines 306-307):
`multiprocessing.Pool.map` applies the job to every discovered file and
returns the results in the order of its input list, which this embedding
models as `List.map`. -/
def batchResults (run : String → EngineOutcome) (objFiles : List String) : List String :=
  objFiles.map (processSingleModel run)

/-- Bool-valued check that the first list is an initial segment of the
second (used to classify result lines by their marker text). -/
def strBegins : List Char → List Char → Bool
  | [], _ => true
  | _ :: _, [] => false
  | a :: as, b :: bs => if a = b then strBegins as bs else false

/-- A result line marks success iff it begins with the success text of
line 277 (`成功渲染`); failure lines (line 279) begin with `渲染失败`. -/
def resultMarksSuccess (r : String) : Bool := strBegins "成功渲染".data r.data

theorem marks_success_ok (p : String) : resultMarksSuccess ("成功渲染: " ++ p) = true := rfl

theorem marks_success_err (p e : String) :
    resultMarksSuccess ("渲染失败 " ++ p ++ ": " ++ e) = false := rfl

/-- C5: for every batch of `N` discovered files of which `K` fail inside
the job body (missing file, engine error, I/O error, failed directory
creation — all abstracted in the oracle), the orchestrator produces
exactly `N` result strings, exactly `K` marked failure and `N − K` marked
success.  The statement is total in the oracle: no per-model error
escapes a job, so no failure aborts the batch. -/
theorem batch_failure_containment (run : String → EngineOutcome) (files : List String) :
    (batchResults run files).length = files.length ∧
      (batchResults run files).countP (fun r => !(resultMarksSuccess r)) =
        files.countP (jobFails run) ∧
      (batchResults run files).countP (fun r => resultMarksSuccess r) =
        files.length - files.countP (jobFails run) := by
  have hlen : (batchResults run files).length = files.length := List.length_map _ _
  have hfail : (batchResults run files).countP (fun r => !(resultMarksSuccess r)) =
      files.countP (jobFails run) := by
    clear hlen
    induction files with
    | nil => rfl
    | cons f fs ih =>
        show ((processSingleModel run f :: batchResults run fs).countP
            (fun r => !(resultMarksSuccess r))) = _
        rw [List.countP_cons, List.countP_cons, ih]
        cases hrun : run f with
        | ok =>
            simp [processSingleModel, hrun, jobFails, marks_success_ok]
        | err e =>
            simp [processSingleModel, hrun, jobFails, marks_success_err]
  have hsucc : (batchResults run files).countP (fun r => resultMarksSuccess r) =
      files.length - files.countP (jobFails run) := by
    clear hlen hfail
    induction files with
    | nil => rfl
    | cons f fs ih =>
        show ((processSingleModel run f :: batchResults run fs).countP
            (fun r => resultMarksSuccess r)) = _
        rw [List.countP_cons, List.countP_cons, ih]
        have hle : fs.countP (jobFails run) ≤ fs.length := List.countP_le_length _
        cases hrun : run f with
        | ok =>
            simp [processSingleModel, hrun, marks_success_ok, jobFails]
            omega
        | err e =>
            simp [processSingleModel, hrun, marks_success_err, jobFails]
  exact ⟨hlen, hfail, hsucc⟩

/-- C9: the collected results (and hence the printed summary lines, which
iterate the result list in order at lines 310-311) are in exactly the
order in which the input files were discovered: `Pool.map` preserves the
order of its input, so the `i`-th result is the job result of the `i`-th
discovered file. -/
theorem results_in_discovery_order (run : String → EngineOutcome) (files : List String) :
    batchResults run files = files.map (processSingleModel run) ∧
      ∀ i : Nat, (batchResults run files)[i]? = (files[i]?).map (processSingleModel run) := by
  refine ⟨rfl, fun i => ?_⟩
  exact List.getElem?_map (processSingleModel run) files i

/-- Index of the last occurrence of a character in a character list
(POSIX `str.rfind` restricted to found/not-found). -/
def rfindIdx : List Char → Char → Option Nat
  | [], _ => none
  | a :: as, c =>
      match rfindIdx as c with
      | some i => some (i + 1)
      | none => if a = c then some 0 else none

/-- `os.path.basename` for POSIX paths: everything after the last `/`
(the whole string when there is no `/`). -/
def basenameStr (s : String) : String :=
  match rfindIdx s.data '/' with
  | none => s
  | some i => ⟨s.data.drop (i + 1)⟩

/-- The stem of `os.path.splitext` applied to a basename (as at line 266):
split at the last `.`, except that a dot with only dots before it in the
name (e.g. `.bashrc`) does not start an extension. -/
def splitextStem (s : String) : String :=
  match rfindIdx s.data '.' with
  | none => s
  | some di =>
      if (s.data.take di).any (fun ch => ch != '.') then ⟨s.data.take di⟩ else s

/-- `os.path.join(a, b)` for POSIX paths with at most one separator to
insert: an absolute `b` wins; otherwise `b` is appended, with a `/`
inserted unless `a` is empty or already ends in `/`. -/
def pathJoin (a b : String) : String :=
  if b.data.head? = some '/' then b
  else if a.data = [] ∨ a.data.getLast? = some '/' then a ++ b
  else a ++ "/" ++ b

/-- The per-model output directory (line 266):
`os.path.join(output_dir, os.path.splitext(os.path.basename(obj_path))[0])`. -/
def modelOutputDir (outputDir objPath : String) : String :=
  pathJoin outputDir (splitextStem (basenameStr objPath))

/-- The output file of one view (line 212):
`os.path.join(self.output_dir, f"{view_name}.png")`. -/
def viewOutputFile (dir viewName : String) : String := pathJoin dir (viewName ++ ".png")

/-- The ten files written for one model, in render order. -/
def renderedPaths (outputDir objPath : String) : List String :=
  renderAllViewsOrder.map (fun v => viewOutputFile (modelOutputDir outputDir objPath) v)

/-- `os.makedirs(d, exist_ok=True)` (line 267) on an abstract file-system
state, taken as the list of existing directories: creating an existing
directory is not an error and changes nothing. -/
def makedirs (fs : List String) (d : String) : List String :=
  if d ∈ fs then fs else fs ++ [d]

/-- Spec-side formula for an output path:
`output_dir/<model_name>/<view_name>.png` with `model_name` the base
filename with its extension stripped. -/
def specViewPath (outputDir objPath viewName : String) : String :=
  pathJoin (pathJoin outputDir (splitextStem (basenameStr objPath))) (viewName ++ ".png")

theorem strAppend_data (s t : String) : (s ++ t).data = s.data ++ t.data := rfl

theorem strAppend_left_cancel {s t u : String} (h : s ++ t = s ++ u) : t = u := by
  have hd : s.data ++ t.data = s.data ++ u.data := by
    rw [← strAppend_data, ← strAppend_data, h]
  have hdu : t.data = u.data := List.append_cancel_left hd
  cases t
  cases u
  exact congrArg String.mk hdu

theorem pathJoin_relative (a x : String) (hx : ¬ x.data.head? = some '/') :
    pathJoin a x =
      (if a.data = [] ∨ a.data.getLast? = some '/' then a else a ++ "/") ++ x := by
  unfold pathJoin
  rw [if_neg hx]
  by_cases h : a.data = [] ∨ a.data.getLast? = some '/'
  · rw [if_pos h, if_pos h]
  · rw [if_neg h, if_neg h]

/-- C8: for every discovered input file, the rendered view paths are
exactly `output_dir/<base filename without extension>/<view_name>.png`
for the ten view names; the ten paths are pairwise distinct (one
subdirectory holding exactly the 10 PNG files), and creating the model
subdirectory is idempotent (an existing directory is not an error). -/
theorem output_layout (outputDir objPath : String) (fs : List String) (d : String) :
    renderedPaths outputDir objPath =
        renderAllViewsOrder.map (specViewPath outputDir objPath) ∧
      renderAllViewsOrder.length = 10 ∧
      (renderedPaths outputDir objPath).Nodup ∧
      makedirs (makedirs fs d) d = makedirs fs d ∧
      d ∈ makedirs fs d := by
  have hmem : d ∈ makedirs fs d := by
    unfold makedirs
    by_cases h : d ∈ fs
    · rw [if_pos h]
      exact h
    · rw [if_neg h]
      exact List.mem_append_right _ (List.mem_cons_self d [])
  have hidem : makedirs (makedirs fs d) d = makedirs fs d := by
    show (if d ∈ makedirs fs d then makedirs fs d else makedirs fs d ++ [d]) = makedirs fs d
    rw [if_pos hmem]
  have hnodup : (renderedPaths outputDir objPath).Nodup := by
    have h1 : renderedPaths outputDir objPath =
        (["front.png", "back.png", "right.png", "left.png", "top.png", "bottom.png",
          "standard.png", "iso_back.png", "iso_left.png", "iso_right.png"] : List String).map
          (fun x => pathJoin (modelOutputDir outputDir objPath) x) := rfl
    have h2 : (["front.png", "back.png", "right.png", "left.png", "top.png", "bottom.png",
          "standard.png", "iso_back.png", "iso_left.png", "iso_right.png"] : List String).map
          (fun x => pathJoin (modelOutputDir outputDir objPath) x) =
        (["front.png", "back.png", "right.png", "left.png", "top.png", "bottom.png",
          "standard.png", "iso_back.png", "iso_left.png", "iso_right.png"] : List String).map
          (fun x => (if (modelOutputDir outputDir objPath).data = [] ∨
              (modelOutputDir outputDir objPath).data.getLast? = some '/'
            then modelOutputDir outputDir objPath
            else modelOutputDir outputDir objPath ++ "/") ++ x) := by
      refine List.map_congr_left (fun x hx => ?_)
      refine pathJoin_relative _ x ?_
      fin_cases hx <;> decide
    rw [h1, h2]
    refine List.Nodup.map (fun a b hab => strAppend_left_cancel hab) ?_
    decide
  exact ⟨rfl, rfl, hnodup, hidem, hmem⟩

/-- C10: the map from input file to output subdirectory is not injective:
any two discovered files whose base filenames (extension stripped) agree
are rendered into the same output subdirectory, and every one of their
ten view files coincides — the later job overwrites the earlier one's
PNGs. -/
theorem duplicate_basename_collision (out p q : String)
    (h : splitextStem (basenameStr p) = splitextStem (basenameStr q)) :
    modelOutputDir out p = modelOutputDir out q ∧
      renderedPaths out p = renderedPaths out q := by
  have hdir : modelOutputDir out p = modelOutputDir out q := by
    unfold modelOutputDir
    rw [h]
  exact ⟨hdir, by unfold renderedPaths; rw [hdir]⟩

/-- Witness for C10: two distinct discovered files in different nested
subdirectories with the same base filename collide on the same output
subdirectory. -/
theorem duplicate_basename_collision_witness :
    ("input/a/part.obj" : String) ≠ "input/b/part.obj" ∧
      modelOutputDir "out" "input/a/part.obj" = modelOutputDir "out" "input/b/part.obj" :=
  ⟨by decide,
    (duplicate_basename_collision "out" "input/a/part.obj" "input/b/part.obj" (by decide)).1⟩

theorem sqrt_two_bounds :
    (14142135 : ℝ) / 10000000 < Real.sqrt 2 ∧ Real.sqrt 2 < (14142136 : ℝ) / 10000000 := by
  have h2 : Real.sqrt 2 ^ 2 = 2 := Real.sq_sqrt (by norm_num)
  have h0 : (0 : ℝ) ≤ Real.sqrt 2 := Real.sqrt_nonneg 2
  constructor
  · nlinarith [h2, h0]
  · nlinarith [h2, h0]

theorem arctan_ge_cubic (x : ℝ) (hx : 0 ≤ x) : x - x ^ 3 / 3 ≤ Real.arctan x := by
  have hF : ∀ t : ℝ, HasDerivAt (fun t => Real.arctan t - (t - t ^ 3 / 3))
      (1 / (1 + t ^ 2) - (1 - (3 : ℕ) * t ^ 2 / 3)) t := by
    intro t
    have h1 : HasDerivAt (fun t : ℝ => t - t ^ 3 / 3) (1 - (3 : ℕ) * t ^ 2 / 3) t := by
      have hp : HasDerivAt (fun t : ℝ => t ^ 3 / 3) ((3 : ℕ) * t ^ 2 / 3) t :=
        (hasDerivAt_pow 3 t).div_const 3
      simpa using (hasDerivAt_id t).sub hp
    exact (Real.hasDerivAt_arctan t).sub h1
  have hmono : Monotone (fun t => Real.arctan t - (t - t ^ 3 / 3)) := by
    refine monotone_of_deriv_nonneg (fun t => (hF t).differentiableAt) (fun t => ?_)
    rw [(hF t).deriv]
    have h1 : (0 : ℝ) < 1 + t ^ 2 := by positivity
    have h2 : 1 - t ^ 2 ≤ 1 / (1 + t ^ 2) := by
      rw [le_div_iff₀ h1]
      nlinarith [sq_nonneg (t ^ 2)]
    push_cast
    nlinarith [h2]
  have hm := hmono hx
  simp only [Real.arctan_zero] at hm
  have h0 : ((0 : ℝ) - 0 ^ 3 / 3) = 0 := by norm_num
  linarith [hm, h0.ge]

theorem arctan_le_quintic (x : ℝ) (hx : 0 ≤ x) :
    Real.arctan x ≤ x - x ^ 3 / 3 + x ^ 5 / 5 := by
  have hF : ∀ t : ℝ, HasDerivAt (fun t => (t - t ^ 3 / 3 + t ^ 5 / 5) - Real.arctan t)
      ((1 - (3 : ℕ) * t ^ 2 / 3 + (5 : ℕ) * t ^ 4 / 5) - 1 / (1 + t ^ 2)) t := by
    intro t
    have hp3 : HasDerivAt (fun t : ℝ => t ^ 3 / 3) ((3 : ℕ) * t ^ 2 / 3) t :=
      (hasDerivAt_pow 3 t).div_const 3
    have hp5 : HasDerivAt (fun t : ℝ => t ^ 5 / 5) ((5 : ℕ) * t ^ 4 / 5) t :=
      (hasDerivAt_pow 5 t).div_const 5
    have h1 : HasDerivAt (fun t : ℝ => t - t ^ 3 / 3 + t ^ 5 / 5)
        (1 - (3 : ℕ) * t ^ 2 / 3 + (5 : ℕ) * t ^ 4 / 5) t := by
      simpa using ((hasDerivAt_id t).sub hp3).add hp5
    exact h1.sub (Real.hasDerivAt_arctan t)
  have hmono : Monotone (fun t => (t - t ^ 3 / 3 + t ^ 5 / 5) - Real.arctan t) := by
    refine monotone_of_deriv_nonneg (fun t => (hF t).differentiableAt) (fun t => ?_)
    rw [(hF t).deriv]
    have h1 : (0 : ℝ) < 1 + t ^ 2 := by positivity
    have h2 : 1 / (1 + t ^ 2) ≤ 1 - t ^ 2 + t ^ 4 := by
      rw [div_le_iff₀ h1]
      nlinarith [sq_nonneg (t ^ 3)]
    push_cast
    nlinarith [h2]
  have hm := hmono hx
  simp only [Real.arctan_zero] at hm
  have h0 : ((0 : ℝ) - 0 ^ 3 / 3 + 0 ^ 5 / 5) = 0 := by norm_num
  linarith [hm, h0.le]

theorem arctan_identity_sqrt2 :
    Real.arctan (1 / Real.sqrt 2) + Real.arctan (3 - 2 * Real.sqrt 2) = Real.pi / 4 := by
  have hs2 : Real.sqrt 2 ^ 2 = 2 := Real.sq_sqrt (by norm_num)
  have hb := sqrt_two_bounds
  have hs_pos : (0 : ℝ) < Real.sqrt 2 := by nlinarith [hb.1]
  have hne : Real.sqrt 2 ≠ 0 := ne_of_gt hs_pos
  have hmul : (1 / Real.sqrt 2) * (3 - 2 * Real.sqrt 2) < 1 := by
    rw [div_mul_eq_mul_div, one_mul, div_lt_one hs_pos]
    nlinarith [hb.1]
  have hden : (0 : ℝ) < 1 - 1 / Real.sqrt 2 * (3 - 2 * Real.sqrt 2) := by linarith [hmul]
  have hnum : 1 / Real.sqrt 2 + (3 - 2 * Real.sqrt 2) =
      1 - 1 / Real.sqrt 2 * (3 - 2 * Real.sqrt 2) := by
    field_simp
    nlinarith [hs2]
  rw [Real.arctan_add hmul, hnum, div_self (ne_of_gt hden), Real.arctan_one]

theorem arctan_u_bounds :
    (16988 : ℝ) / 100000 < Real.arctan (3 - 2 * Real.sqrt 2) ∧
      Real.arctan (3 - 2 * Real.sqrt 2) < (16992 : ℝ) / 100000 := by
  have hb := sqrt_two_bounds
  have hu_lo : (1715728 : ℝ) / 10000000 < 3 - 2 * Real.sqrt 2 := by linarith [hb.2]
  have hu_hi : 3 - 2 * Real.sqrt 2 < (1715730 : ℝ) / 10000000 := by linarith [hb.1]
  have hu_nn : (0 : ℝ) ≤ 3 - 2 * Real.sqrt 2 := by linarith
  have hlow := arctan_ge_cubic (3 - 2 * Real.sqrt 2) hu_nn
  have hhigh := arctan_le_quintic (3 - 2 * Real.sqrt 2) hu_nn
  have hc3hi : (3 - 2 * Real.sqrt 2) ^ 3 < ((1715730 : ℝ) / 10000000) ^ 3 :=
    pow_lt_pow_left₀ hu_hi hu_nn (by norm_num)
  have hc3lo : ((1715728 : ℝ) / 10000000) ^ 3 < (3 - 2 * Real.sqrt 2) ^ 3 :=
    pow_lt_pow_left₀ hu_lo (by norm_num) (by norm_num)
  have hc5hi : (3 - 2 * Real.sqrt 2) ^ 5 < ((1715730 : ℝ) / 10000000) ^ 5 :=
    pow_lt_pow_left₀ hu_hi hu_nn (by norm_num)
  constructor
  · nlinarith [hlow, hu_lo, hc3hi]
  · nlinarith [hhigh, hu_hi, hc3lo, hc5hi]

theorem pitch_rad_bounds :
    (955322 : ℝ) / 1000000 < (isoAngleDeg : ℝ) * Real.pi / 180 ∧
      (isoAngleDeg : ℝ) * Real.pi / 180 < (955325 : ℝ) / 1000000 := by
  have hpi_lo : (3.141592 : ℝ) < Real.pi := Real.pi_gt_d6
  have hpi_hi : Real.pi < (3.141593 : ℝ) := Real.pi_lt_d6
  have hpitch : (isoAngleDeg : ℝ) * Real.pi / 180 = (54736 : ℝ) / 1000 * Real.pi / 180 := by
    unfold isoAngleDeg
    norm_num
  rw [hpitch]
  constructor
  · nlinarith [hpi_lo]
  · nlinarith [hpi_hi]

theorem arctan_inv_sqrt2_bounds :
    (615478 : ℝ) / 1000000 < Real.arctan (1 / Real.sqrt 2) ∧
      Real.arctan (1 / Real.sqrt 2) < (615520 : ℝ) / 1000000 := by
  have hpi_lo : (3.141592 : ℝ) < Real.pi := Real.pi_gt_d6
  have hpi_hi : Real.pi < (3.141593 : ℝ) := Real.pi_lt_d6
  have hid := arctan_identity_sqrt2
  have hu := arctan_u_bounds
  constructor
  · linarith [hid, hu.2, hpi_lo]
  · linarith [hid, hu.1, hpi_hi]

theorem arctan_sqrt2_bounds :
    (955276 : ℝ) / 1000000 < Real.arctan (Real.sqrt 2) ∧
      Real.arctan (Real.sqrt 2) < (955319 : ℝ) / 1000000 := by
  have hpi_lo : (3.141592 : ℝ) < Real.pi := Real.pi_gt_d6
  have hpi_hi : Real.pi < (3.141593 : ℝ) := Real.pi_lt_d6
  have hb := sqrt_two_bounds
  have hs_pos : (0 : ℝ) < Real.sqrt 2 := by nlinarith [hb.1]
  have hinv : Real.arctan (Real.sqrt 2)⁻¹ = Real.pi / 2 - Real.arctan (Real.sqrt 2) :=
    Real.arctan_inv_of_pos hs_pos
  have hone : (Real.sqrt 2)⁻¹ = 1 / Real.sqrt 2 := (one_div (Real.sqrt 2)).symm
  have hbounds := arctan_inv_sqrt2_bounds
  rw [hone] at hinv
  constructor
  · linarith [hinv, hbounds.2, hpi_lo]
  · linarith [hinv, hbounds.1, hpi_hi]

/-- C4 counterexample: the isometric pitch written by the script,
`math.radians(54.736) ≈ 0.955323`, is NOT within `10⁻⁴` of
`arctan(1/√2) ≈ 0.615480`; the label `arctan(1/√2)` (also present in the
source comment at line 231) does not describe the constant. -/
theorem iso_pitch_not_arctan_inv_sqrt2 :
    ¬ (|(isoAngleDeg : ℝ) * Real.pi / 180 - Real.arctan (1 / Real.sqrt 2)| < 1 / 10000) := by
  have hp := pitch_rad_bounds
  have ha := arctan_inv_sqrt2_bounds
  have hpos : (0 : ℝ) < (isoAngleDeg : ℝ) * Real.pi / 180 - Real.arctan (1 / Real.sqrt 2) := by
    linarith [hp.1, ha.2]
  rw [abs_of_pos hpos]
  intro hcon
  linarith [hp.1, ha.2]

/-- C4 (amended): each of the four isometric poses sits at one of the four
sign combinations of `(±15, ±15, 15)` (each exactly once), has pitch equal
to the constant `54.736°` with zero roll, the four yaws `45°, 135°, 225°,
315°` are each used exactly once, and the pitch in radians equals
`arctan(√2)` (not `arctan(1/√2)`) to at least four decimal places
(≈ 0.955317 rad ≈ 54.7356°). -/
theorem iso_pose_table_amended :
    (isoViews.map (fun e => e.2.1)).Perm
        [⟨15, -15, 15⟩, ⟨-15, 15, 15⟩, ⟨-15, -15, 15⟩, ⟨15, 15, 15⟩] ∧
      isoViews.map (fun e => (e.2.2.x, e.2.2.y)) =
        [(isoAngleDeg, 0), (isoAngleDeg, 0), (isoAngleDeg, 0), (isoAngleDeg, 0)] ∧
      (isoViews.map (fun e => e.2.2.z)).Perm [45, 135, 225, 315] ∧
      |(isoAngleDeg : ℝ) * Real.pi / 180 - Real.arctan (Real.sqrt 2)| < 1 / 10000 := by
  refine ⟨?_, rfl, ?_, ?_⟩
  · exact List.Perm.refl _
  · show ([(45 : ℚ), 225, 315, 135]).Perm [45, 135, 225, 315]
    refine List.Perm.cons 45 ?_
    have h1 : ([(315 : ℚ), 135]).Perm [135, 315] := List.Perm.swap 135 315 []
    have h2 : ([(225 : ℚ), 315, 135]).Perm [225, 135, 315] := List.Perm.cons 225 h1
    have h3 : ([(225 : ℚ), 135, 315]).Perm [135, 225, 315] := List.Perm.swap 135 225 [315]
    exact h2.trans h3
  · have hp := pitch_rad_bounds
    have ha := arctan_sqrt2_bounds
    rw [abs_lt]
    constructor
    · linarith [hp.1, ha.2]
    · linarith [hp.2, ha.1]

end ObjToPng
